import Mathlib

set_option maxRecDepth 10000

/-!
Verification of the plan-execute orchestration engine and SSE event broker
of the `ai-agent-go` repository (packages `internal/core` and `internal/sse`).
Go strings are modelled at the character level (valid UTF-8 byte-substring
search coincides with character-level search), machine integers as `Nat`/`Int`,
and the float64 ratio comparison of the relevance gate as the exact rational
comparison it computes for all feasible word counts (below 2^52).
-/

namespace AiAgent

/-- Whitespace test used by Go `strings.Fields` (ASCII part of `unicode.IsSpace`:
space, tab, newline, vertical tab, form feed, carriage return). -/
def goIsSpace (c : Char) : Bool :=
  c = ' ' || c = '\t' || c = '\n' || c = Char.ofNat 11 || c = Char.ofNat 12 || c = '\r'

/-- Go `strings.ToLower`, modelled per character (`Char.toLower` agrees with Go
on ASCII, which is all the functions below ever compare case-insensitively). -/
def goToLower (s : String) : String :=
  String.mk (s.toList.map Char.toLower)

/-- Accumulator-based splitter behind `goFields`. -/
def goFieldsAux : List Char → List Char → List (List Char)
  | [], acc => if acc.isEmpty then [] else [acc.reverse]
  | c :: rest, acc =>
    if goIsSpace c then
      if acc.isEmpty then goFieldsAux rest [] else acc.reverse :: goFieldsAux rest []
    else goFieldsAux rest (c :: acc)

/-- Go `strings.Fields`: split around runs of whitespace, dropping empties. -/
def goFields (s : String) : List String :=
  (goFieldsAux s.toList []).map String.mk

/-- `findSubstring` from `internal/core/plan.go`: index of the first occurrence
of `pat` in `text` (the Go function returns -1 when absent; `none` models -1).
Go `strings.Contains`/`strings.Index` have the same first-occurrence semantics. -/
def findSub (text pat : List Char) : Option Nat :=
  if pat.isPrefixOf text then some 0
  else
    match text with
    | [] => none
    | _ :: t => (findSub t pat).map (· + 1)

/-- Go `strings.Contains sub s` (character-level; equal to Go's byte-level
search for valid UTF-8 operands). -/
def containsSubstr (s sub : String) : Bool :=
  (findSub s.toList sub.toList).isSome

/-! ## Plan data model (`internal/core/plan.go`)

`PlanStep.Parameters` is Go's `map[string]interface{}`: `none` models the nil
map, `some assoc` a map whose association list has distinct keys (the JSON
decoder below inserts with overwrite, as Go does for duplicate object keys).
JSON numbers (`float64` in Go) are kept as their source lexeme. -/

inductive JVal where
  | jstr (s : String)
  | jnum (lexeme : String)
  | jbool (b : Bool)
  | jnull
  | jarr (xs : List JVal)
  | jobj (fields : List (String × JVal))
deriving Repr

/-- A step of an execution plan (`PlanStep` in `plan.go`). -/
structure PlanStep where
  Action : String
  Parameters : Option (List (String × JVal))
  ShouldContinue : Bool
deriving Repr

/-- An execution plan (`ExecutionPlan` in `plan.go`). -/
structure ExecutionPlan where
  Thought : String
  Steps : List PlanStep
deriving Repr

/-- First-match lookup in an association list (Go map read; the decoder keeps
keys unique, so first match is the map entry). -/
def lookupJ (m : List (String × JVal)) (k : String) : Option JVal :=
  match m with
  | [] => none
  | (k', v) :: rest => if k' = k then some v else lookupJ rest k

/-- `Agent.isPlanRelevant` from `internal/core/agent.go` (lines 398-415):
lowercase query and thought, split the query into fields, count fields of
length > 2 that occur in the thought, accept iff `matches/total >= 0.3`.
The float64 comparison `float64(m)/float64(n) >= 0.3` equals the exact
comparison `10*m >= 3*n` for every `n` in `1..2^52`; for `n = 0` Go computes
`NaN >= 0.3`, which is false, hence the emptiness guard. -/
def isPlanRelevant (plan : ExecutionPlan) (query : String) : Bool :=
  let queryLower := goToLower query
  let thoughtLower := goToLower plan.Thought
  let words := goFields queryLower
  let matchCount :=
    (words.filter (fun w => decide (w.length > 2) && containsSubstr thoughtLower w)).length
  !words.isEmpty && decide (10 * matchCount ≥ 3 * words.length)

/-- The words of the query that the gate treats as significant: fields of the
lowercased query of length > 2 (stated from the claim, for comparison with
`isPlanRelevant`). -/
def significantWords (query : String) : List String :=
  (goFields (goToLower query)).filter (fun w => decide (w.length > 2))

/-- C2 (counterexample): for the query `"cat a b c d e f g h i"` the thought
`"cat"` contains every significant word of the query (so 100 percent of them,
well above 30 percent), yet the gate rejects: the code divides the match count
by the number of ALL whitespace-separated words (10 here), not by the number
of significant words (1 here), so the ratio is 1/10 < 0.3. -/
theorem c2_counterexample :
    (∀ w ∈ significantWords "cat a b c d e f g h i",
        containsSubstr (goToLower "cat") w = true) ∧
    significantWords "cat a b c d e f g h i" ≠ [] ∧
    isPlanRelevant ⟨"cat", []⟩ "cat a b c d e f g h i" = false := by
  decide

/-- C2 (amended): the gate accepts iff the query splits into a non-empty list
of whitespace-separated words and `10 * matches >= 3 * totalWords`, where
`totalWords` counts ALL words of the query (short ones included) and `matches`
counts (with multiplicity) the words of length > 2 that occur as substrings of
the lowercased thought.  In particular a thought containing none of the
query's significant words is always rejected. -/
theorem c2_amended (plan : ExecutionPlan) (query : String) :
    (isPlanRelevant plan query = true ↔
      (goFields (goToLower query) ≠ [] ∧
       10 * ((goFields (goToLower query)).filter
              (fun w => decide (w.length > 2) &&
                        containsSubstr (goToLower plan.Thought) w)).length
         ≥ 3 * (goFields (goToLower query)).length)) ∧
    ((∀ w ∈ significantWords query, containsSubstr (goToLower plan.Thought) w = false) →
      isPlanRelevant plan query = false) := by
  constructor
  · simp only [isPlanRelevant, Bool.and_eq_true, Bool.not_eq_true',
      List.isEmpty_eq_false_iff_exists_mem, decide_eq_true_eq]
    constructor
    · rintro ⟨⟨w, hw⟩, h2⟩
      exact ⟨fun hnil => List.not_mem_nil w (hnil ▸ hw), h2⟩
    · rintro ⟨h1, h2⟩
      refine ⟨?_, h2⟩
      cases hq : goFields (goToLower query) with
      | nil => exact absurd hq h1
      | cons a l => exact ⟨a, hq ▸ List.mem_cons_self a l⟩
  · intro hnone
    have hfilter : (goFields (goToLower query)).filter
        (fun w => decide (w.length > 2) &&
                  containsSubstr (goToLower plan.Thought) w) = [] := by
      rw [List.filter_eq_nil_iff]
      intro w hw
      by_cases hlen : w.length > 2
      · have : w ∈ significantWords query := by
          simp only [significantWords, List.mem_filter, decide_eq_true_eq]
          exact ⟨hw, hlen⟩
        simp [hlen, hnone w this]
      · simp [hlen]
    simp only [isPlanRelevant, hfilter]
    cases hq : goFields (goToLower query) with
    | nil => simp
    | cons a l => simp [Nat.succ_ne_zero]

/-- C2 (witness for the amended theorem). -/
theorem c2_amended_witness :
    isPlanRelevant ⟨"xyz", []⟩ "cat dog" = false :=
  (c2_amended ⟨"xyz", []⟩ "cat dog").2 (by decide)

/-! ## JSON decoding (model of Go `encoding/json` as used by `plan.go`)

`json.Unmarshal` is Go's standard library; it is modelled here exactly as far
as `ParseExecutionPlan`'s observable behaviour depends on it: strict RFC 8259
syntax, leading/trailing whitespace tolerated, duplicate object keys resolved
last-wins, unknown struct fields ignored, JSON `null` leaving the zero value
(and a top-level `null` succeeding with the zero plan), case-insensitive field
name matching, type mismatches failing.  Error detail strings of the Go json
package are not modelled (no claim inspects them).  A `null` array element
(which in Go produces a nil `*PlanStep` and a nil-dereference panic inside
`validatePlan`) is modelled as a decode failure; no claim exercises it. -/

def isJsonWs (c : Char) : Bool :=
  c = ' ' || c = '\t' || c = '\n' || c = '\r'

/-- Drop leading JSON whitespace. -/
def skipWs : List Char → List Char
  | [] => []
  | c :: rest => if isJsonWs c then skipWs rest else c :: rest

/-- Drop leading and trailing JSON whitespace.  Go's decoder skips leading
whitespace before the value and accepts only trailing whitespace after it;
since no JSON value grammar production consumes trailing whitespace, this
outer trim is observationally the same. -/
def trimWs (cs : List Char) : List Char :=
  ((skipWs (skipWs cs).reverse)).reverse

/-- Value of one hexadecimal digit (code points compared numerically). -/
def hexVal (c : Char) : Option Nat :=
  let n := c.toNat
  if 48 ≤ n && n ≤ 57 then some (n - 48)
  else if 97 ≤ n && n ≤ 102 then some (n - 87)
  else if 65 ≤ n && n ≤ 70 then some (n - 55)
  else none

/-- JSON string body parser (after the opening quote): returns the unescaped
content and the rest after the closing quote.  Unescaped control characters
are rejected, as in Go; surrogate pair combining of `\uXXXX` escapes is not
modelled (no claim uses them). -/
def pStrAux : List Char → List Char → Option (List Char × List Char)
  | [], _ => none
  | c :: rest, acc =>
    if c = '"' then some (acc.reverse, rest)
    else if c = '\\' then
      match rest with
      | [] => none
      | e :: rest2 =>
        if e = '"' then pStrAux rest2 ('"' :: acc)
        else if e = '\\' then pStrAux rest2 ('\\' :: acc)
        else if e = '/' then pStrAux rest2 ('/' :: acc)
        else if e = 'b' then pStrAux rest2 (Char.ofNat 8 :: acc)
        else if e = 'f' then pStrAux rest2 (Char.ofNat 12 :: acc)
        else if e = 'n' then pStrAux rest2 ('\n' :: acc)
        else if e = 'r' then pStrAux rest2 ('\r' :: acc)
        else if e = 't' then pStrAux rest2 ('\t' :: acc)
        else if e = 'u' then
          match rest2 with
          | h1 :: h2 :: h3 :: h4 :: rest3 =>
            match hexVal h1, hexVal h2, hexVal h3, hexVal h4 with
            | some a, some b, some c2, some d =>
              pStrAux rest3 (Char.ofNat (a * 4096 + b * 256 + c2 * 16 + d) :: acc)
            | _, _, _, _ => none
          | _ => none
        else none
    else if c.toNat < 32 then none
    else pStrAux rest (c :: acc)

def spanDigits : List Char → (List Char × List Char)
  | [] => ([], [])
  | c :: rest =>
    if c.isDigit then
      let (d, r) := spanDigits rest
      (c :: d, r)
    else ([], c :: rest)

/-- JSON number lexer (strict RFC grammar, as Go's scanner); returns the
lexeme and the rest. -/
def pNum (cs : List Char) : Option (List Char × List Char) :=
  let (neg, cs1) := match cs with
    | '-' :: r => (['-'], r)
    | _ => (([] : List Char), cs)
  match cs1 with
  | [] => none
  | c :: rest =>
    if !c.isDigit then none
    else
      let (intPart, after) :=
        if c = '0' then ([c], rest)
        else
          let (d, r) := spanDigits rest
          (c :: d, r)
      let fracRes : Option (List Char × List Char) :=
        match after with
        | '.' :: r =>
          match spanDigits r with
          | ([], _) => none
          | (d, r2) => some ('.' :: d, r2)
        | _ => some ([], after)
      match fracRes with
      | none => none
      | some (fracPart, after2) =>
        let expRes : Option (List Char × List Char) :=
          match after2 with
          | e :: r =>
            if e = 'e' || e = 'E' then
              let (sgn, r1) := match r with
                | '+' :: r' => (['+'], r')
                | '-' :: r' => (['-'], r')
                | _ => (([] : List Char), r)
              match spanDigits r1 with
              | ([], _) => none
              | (d, r2) => some (e :: (sgn ++ d), r2)
            else some ([], after2)
          | [] => some ([], after2)
        match expRes with
        | none => none
        | some (expPart, after3) =>
          some (neg ++ intPart ++ fracPart ++ expPart, after3)

/-- Insert-with-overwrite into an association list (Go map semantics for
duplicate JSON object keys: the later value wins). -/
def insertReplace (m : List (String × JVal)) (k : String) (v : JVal) :
    List (String × JVal) :=
  match m with
  | [] => [(k, v)]
  | (k', v') :: rest =>
    if k' = k then (k, v) :: rest else (k', v') :: insertReplace rest k v

mutual

/-- JSON value parser with fuel (the fuel passed by `jsonUnmarshalPlan` is
always sufficient; it exists only to make the recursion structural). -/
def pVal : Nat → List Char → Option (JVal × List Char)
  | 0, _ => none
  | Nat.succ fuel, cs =>
    match cs with
    | [] => none
    | c :: rest =>
      if c = 'n' then
        match rest with
        | 'u' :: 'l' :: 'l' :: r => some (JVal.jnull, r)
        | _ => none
      else if c = 't' then
        match rest with
        | 'r' :: 'u' :: 'e' :: r => some (JVal.jbool true, r)
        | _ => none
      else if c = 'f' then
        match rest with
        | 'a' :: 'l' :: 's' :: 'e' :: r => some (JVal.jbool false, r)
        | _ => none
      else if c = '"' then
        match pStrAux rest [] with
        | some (content, r) => some (JVal.jstr (String.mk content), r)
        | none => none
      else if c = '[' then
        match skipWs rest with
        | ']' :: r => some (JVal.jarr [], r)
        | cs2 => pArrElems fuel cs2 []
      else if c = '{' then
        match skipWs rest with
        | '}' :: r => some (JVal.jobj [], r)
        | cs2 => pObjFields fuel cs2 []
      else
        match pNum cs with
        | some (lex, r) => some (JVal.jnum (String.mk lex), r)
        | none => none

/-- Array elements after the opening bracket (non-empty case). -/
def pArrElems : Nat → List Char → List JVal → Option (JVal × List Char)
  | 0, _, _ => none
  | Nat.succ fuel, cs, acc =>
    match pVal fuel cs with
    | none => none
    | some (v, r) =>
      match skipWs r with
      | ',' :: r2 => pArrElems fuel (skipWs r2) (v :: acc)
      | ']' :: r2 => some (JVal.jarr (v :: acc).reverse, r2)
      | _ => none

/-- Object members after the opening brace (non-empty case). -/
def pObjFields : Nat → List Char → List (String × JVal) →
    Option (JVal × List Char)
  | 0, _, _ => none
  | Nat.succ fuel, cs, acc =>
    match cs with
    | '"' :: r =>
      match pStrAux r [] with
      | none => none
      | some (key, r2) =>
        match skipWs r2 with
        | ':' :: r3 =>
          match pVal fuel (skipWs r3) with
          | none => none
          | some (v, r4) =>
            let acc2 := insertReplace acc (String.mk key) v
            match skipWs r4 with
            | ',' :: r5 =>
              match skipWs r5 with
              | cs2 => pObjFields fuel cs2 acc2
            | '}' :: r5 => some (JVal.jobj acc2, r5)
            | _ => none
        | _ => none
    | _ => none

end

/-- Go `encoding/json` case-insensitive field-name matching
(`strings.EqualFold`, which for the ASCII tags involved is lower-casing). -/
def eqFold (a b : String) : Bool :=
  goToLower a = goToLower b

/-- Decode the members of a step object into a `PlanStep`, Go struct rules:
zero values to start, members applied in order (later duplicates overwrite),
unknown members ignored, `null` members leaving the field (nil for the map),
type mismatches failing. -/
def decodeStepFields : List (String × JVal) → PlanStep → Option PlanStep
  | [], st => some st
  | (k, v) :: rest, st =>
    if eqFold k "action" then
      match v with
      | JVal.jstr s => decodeStepFields rest { st with Action := s }
      | JVal.jnull => decodeStepFields rest st
      | _ => none
    else if eqFold k "parameters" then
      match v with
      | JVal.jobj fields => decodeStepFields rest { st with Parameters := some fields }
      | JVal.jnull => decodeStepFields rest { st with Parameters := none }
      | _ => none
    else if eqFold k "should_continue" then
      match v with
      | JVal.jbool b => decodeStepFields rest { st with ShouldContinue := b }
      | JVal.jnull => decodeStepFields rest st
      | _ => none
    else decodeStepFields rest st

def decodeStep : JVal → Option PlanStep
  | JVal.jobj fields => decodeStepFields fields ⟨"", none, false⟩
  | _ => none

def decodeSteps : List JVal → Option (List PlanStep)
  | [] => some []
  | v :: rest =>
    match decodeStep v, decodeSteps rest with
    | some s, some l => some (s :: l)
    | _, _ => none

/-- Decode the members of the top-level object into an `ExecutionPlan`. -/
def decodePlanFields : List (String × JVal) → ExecutionPlan → Option ExecutionPlan
  | [], p => some p
  | (k, v) :: rest, p =>
    if eqFold k "thought" then
      match v with
      | JVal.jstr s => decodePlanFields rest { p with Thought := s }
      | JVal.jnull => decodePlanFields rest p
      | _ => none
    else if eqFold k "steps" then
      match v with
      | JVal.jarr xs =>
        match decodeSteps xs with
        | some steps => decodePlanFields rest { p with Steps := steps }
        | none => none
      | JVal.jnull => decodePlanFields rest { p with Steps := [] }
      | _ => none
    else decodePlanFields rest p

def decodePlan : JVal → Option ExecutionPlan
  | JVal.jobj fields => decodePlanFields fields ⟨"", []⟩
  | JVal.jnull => some ⟨"", []⟩
  | _ => none

/-- `json.Unmarshal(response, &plan)` for the `ExecutionPlan` target: trim
whitespace, parse exactly one JSON value, decode per Go struct rules. -/
def jsonUnmarshalPlan (cs : List Char) : Option ExecutionPlan :=
  let t := trimWs cs
  match pVal (2 * t.length + 2) t with
  | some (v, r) => if (skipWs r).isEmpty then decodePlan v else none
  | none => none

/-! ## `extractJSONFromResponse` and `ParseExecutionPlan` (`plan.go`) -/

def jsonFenceChars : List Char := "```json".toList

def fenceChars : List Char := "```".toList

def nlnlChars : List Char := "\n\n".toList

/-- `extractJSONFromResponse` from `plan.go` (lines 47-85): find the opening
marker (preferring "```json" over "```"), then the first end marker after it
("```" tried before "\n\n"), falling back to the end of the string; return the
slice, or the empty string when no opening marker is found or the slice would
be empty. -/
def extractJSONFromResponse (response : List Char) : List Char :=
  let start? : Option Nat :=
    match findSub response jsonFenceChars with
    | some idx => some (idx + jsonFenceChars.length)
    | none =>
      match findSub response fenceChars with
      | some idx => some (idx + fenceChars.length)
      | none => none
  match start? with
  | none => []
  | some start =>
    let rest := response.drop start
    let endIdx? : Option Nat :=
      match findSub rest fenceChars with
      | some idx => some (start + idx)
      | none =>
        match findSub rest nlnlChars with
        | some idx => some (start + idx)
        | none => none
    match endIdx? with
    | none => if start < response.length then rest else []
    | some e => if start < e then rest.take (e - start) else []

/-- Step-sequence part of `validatePlan` from `plan.go` (lines 115-144);
`i` is the zero-based index of the first step in `steps`. -/
def validateSteps : Nat → List PlanStep → Option String
  | _, [] => none
  | i, step :: rest =>
    if step.Action = "" then some ("步骤 " ++ toString (i + 1) ++ "缺少执行动作")
    else
      match step.Parameters with
      | none => some ("步骤 " ++ toString (i + 1) ++ "缺少参数")
      | some params =>
        if step.Action = "search_tool" then
          if (lookupJ params "tool_name").isNone then some "工具调用步骤缺少tool_name参数"
          else if (lookupJ params "input").isNone then some "工具调用步骤缺少input参数"
          else validateSteps (i + 1) rest
        else if step.Action = "rag_search" then
          if (lookupJ params "query").isNone then some "RAG检索步骤缺少query参数"
          else validateSteps (i + 1) rest
        else if step.Action = "reason" then
          if (lookupJ params "prompt").isNone then some "推理步骤缺少prompt参数"
          else validateSteps (i + 1) rest
        else some ("未知的执行动作: " ++ step.Action)

/-- `validatePlan` from `plan.go` (lines 106-147): `none` means the plan is
accepted, `some msg` is the returned error message. -/
def validatePlan (plan : ExecutionPlan) : Option String :=
  if plan.Thought = "" then some "执行计划缺少思考过程"
  else if plan.Steps.isEmpty then some "执行计划缺少步骤"
  else validateSteps 0 plan.Steps

/-- `ParseExecutionPlan` from `plan.go` (lines 22-44) on character lists.
The error texts are the `fmt.Errorf` prefixes; the wrapped `%w` detail coming
from the Go json package is not modelled (no claim inspects it).  Go decodes
both Unmarshal attempts into the same `plan` variable, so a first attempt
that partially fills the struct before erroring could leak fields into the
second decode; the second decode is modelled as starting fresh (the leak needs
a response with a fully decodable JSON prefix before a fence, which no claim
exercises, and a first attempt failing on its first byte fills nothing). -/
def ParseExecutionPlanL (response : List Char) : Except String ExecutionPlan :=
  let decoded : Except String ExecutionPlan :=
    match jsonUnmarshalPlan response with
    | some plan => Except.ok plan
    | none =>
      let jsonStr := extractJSONFromResponse response
      if jsonStr.isEmpty then Except.error "无法从响应中提取JSON"
      else
        match jsonUnmarshalPlan jsonStr with
        | some plan => Except.ok plan
        | none => Except.error "解析执行计划JSON失败"
  match decoded with
  | Except.error e => Except.error e
  | Except.ok plan =>
    match validatePlan plan with
    | some e => Except.error ("执行计划验证失败: " ++ e)
    | none => Except.ok plan

/-- `ParseExecutionPlan` on Go strings. -/
def ParseExecutionPlan (response : String) : Except String ExecutionPlan :=
  ParseExecutionPlanL response.toList

/-! ## Validator well-formedness predicates (stated from the claim wording) -/

/-- Whether a step's parameter map is present and carries key `k`. -/
def hasParam (step : PlanStep) (k : String) : Bool :=
  match step.Parameters with
  | some params => (lookupJ params k).isSome
  | none => false

/-- A step as the claim describes a valid one: action is one of the three
known kinds and its required parameter keys are present. -/
def stepWellFormed (step : PlanStep) : Bool :=
  (decide (step.Action = "search_tool") && hasParam step "tool_name" && hasParam step "input") ||
  (decide (step.Action = "rag_search") && hasParam step "query") ||
  (decide (step.Action = "reason") && hasParam step "prompt")

/-- A plan as the claim describes a valid one. -/
def planWellFormed (plan : ExecutionPlan) : Bool :=
  !(decide (plan.Thought = "")) && !plan.Steps.isEmpty && plan.Steps.all stepWellFormed

/-- The first required parameter key missing from a step with a known action
and a present parameter map, in the order `validatePlan` checks them. -/
def firstMissingKey (step : PlanStep) : Option String :=
  match step.Parameters with
  | none => none
  | some params =>
    if step.Action = "search_tool" then
      if (lookupJ params "tool_name").isNone then some "tool_name"
      else if (lookupJ params "input").isNone then some "input"
      else none
    else if step.Action = "rag_search" then
      if (lookupJ params "query").isNone then some "query" else none
    else if step.Action = "reason" then
      if (lookupJ params "prompt").isNone then some "prompt" else none
    else none

lemma validateSteps_wf_step (s : PlanStep) (hs : stepWellFormed s = true)
    (i : Nat) (tail : List PlanStep) :
    validateSteps i (s :: tail) = validateSteps (i + 1) tail := by
  simp only [stepWellFormed, Bool.or_eq_true, Bool.and_eq_true,
    decide_eq_true_eq] at hs
  cases hp : s.Parameters with
  | none =>
    exfalso
    rcases hs with (⟨⟨_, h1⟩, _⟩ | ⟨_, h1⟩) | ⟨_, h1⟩ <;>
      (simp only [hasParam, hp] at h1; exact Bool.noConfusion h1)
  | some params =>
    rcases hs with (⟨⟨ha, h1⟩, h2⟩ | ⟨ha, h1⟩) | ⟨ha, h1⟩
    · simp only [hasParam, hp] at h1 h2
      obtain ⟨v, hv⟩ := Option.isSome_iff_exists.mp h1
      obtain ⟨w, hw⟩ := Option.isSome_iff_exists.mp h2
      simp [validateSteps, hp, ha, hv, hw]
    · simp only [hasParam, hp] at h1
      obtain ⟨v, hv⟩ := Option.isSome_iff_exists.mp h1
      simp [validateSteps, hp, ha, hv]
    · simp only [hasParam, hp] at h1
      obtain ⟨v, hv⟩ := Option.isSome_iff_exists.mp h1
      simp [validateSteps, hp, ha, hv]

lemma validateSteps_wf_all (steps : List PlanStep)
    (h : ∀ s ∈ steps, stepWellFormed s = true) :
    ∀ i, validateSteps i steps = none := by
  induction steps with
  | nil => intro i; rfl
  | cons s rest ih =>
    intro i
    rw [validateSteps_wf_step s (h s (List.mem_cons_self s rest)) i rest]
    exact ih (fun x hx => h x (List.mem_cons_of_mem s hx)) (i + 1)

lemma validateSteps_append_wf (pre tail : List PlanStep)
    (h : ∀ s ∈ pre, stepWellFormed s = true) :
    ∀ i, validateSteps i (pre ++ tail) = validateSteps (i + pre.length) tail := by
  induction pre with
  | nil => intro i; simp
  | cons s rest ih =>
    intro i
    rw [List.cons_append,
      validateSteps_wf_step s (h s (List.mem_cons_self s rest)) i (rest ++ tail),
      ih (fun x hx => h x (List.mem_cons_of_mem s hx)) (i + 1)]
    congr 1
    simp only [List.length_cons]
    omega

/-- C4 (counterexample): a two-step plan whose second step (reason) is missing
its required `prompt` key is rejected, but the error message does not name the
offending step index: the message is the fixed string
"推理步骤缺少prompt参数", which contains no "2" (the 1-based index used by the
messages that do name steps). -/
theorem c4_counterexample :
    validatePlan ⟨"t", [⟨"reason", some [("prompt", JVal.jstr "p")], false⟩,
                        ⟨"reason", some [], false⟩]⟩
        = some "推理步骤缺少prompt参数" ∧
    containsSubstr "推理步骤缺少prompt参数" "2" = false := by
  decide

/-- C4 (amended): the validator accepts every valid plan (non-empty thought,
at least one step, each step's action among the three known kinds with its
required parameter keys present); a plan whose first offending step has a
known action and a present parameter map but is missing a required key is
rejected with an error naming the missing field — but, unlike the claim says,
that message does not include the offending step index. -/
theorem c4_amended :
    (∀ plan : ExecutionPlan, planWellFormed plan = true → validatePlan plan = none) ∧
    (∀ (th : String) (pre rest : List PlanStep) (step : PlanStep) (k : String),
      th ≠ "" →
      (∀ s ∈ pre, stepWellFormed s = true) →
      firstMissingKey step = some k →
      ∃ msg, validatePlan ⟨th, pre ++ step :: rest⟩ = some msg ∧
             containsSubstr msg k = true) := by
  constructor
  · intro plan hwf
    simp only [planWellFormed, Bool.and_eq_true, Bool.not_eq_true',
      decide_eq_false_iff_not, List.all_eq_true] at hwf
    obtain ⟨⟨hth, hne⟩, hall⟩ := hwf
    rw [validatePlan, if_neg hth, hne]
    simp only [Bool.false_eq_true, if_false]
    exact validateSteps_wf_all plan.Steps hall 0
  · intro th pre rest step k hth hpre hk
    have hne : (pre ++ step :: rest).isEmpty = false := by
      cases pre <;> rfl
    show ∃ msg, validatePlan ⟨th, pre ++ step :: rest⟩ = some msg ∧
      containsSubstr msg k = true
    have hval : validatePlan ⟨th, pre ++ step :: rest⟩
        = validateSteps (0 + pre.length) (step :: rest) := by
      simp only [validatePlan, if_neg hth, hne, Bool.false_eq_true, if_false]
      exact validateSteps_append_wf pre (step :: rest) hpre 0
    cases hp : step.Parameters with
    | none =>
      simp only [firstMissingKey, hp] at hk
      exact Option.noConfusion hk
    | some params =>
      simp only [firstMissingKey, hp] at hk
      by_cases h1 : step.Action = "search_tool"
      · rw [if_pos h1] at hk
        by_cases h2 : (lookupJ params "tool_name").isNone = true
        · rw [if_pos h2] at hk
          obtain rfl : "tool_name" = k := Option.some_injective _ hk
          refine ⟨"工具调用步骤缺少tool_name参数", ?_, by decide⟩
          rw [hval]
          simp [validateSteps, hp, h1, h2]
        · rw [if_neg h2] at hk
          by_cases h3 : (lookupJ params "input").isNone = true
          · rw [if_pos h3] at hk
            obtain rfl : "input" = k := Option.some_injective _ hk
            refine ⟨"工具调用步骤缺少input参数", ?_, by decide⟩
            rw [hval]
            simp only [Bool.not_eq_true] at h2
            simp [validateSteps, hp, h1, h2, h3]
          · rw [if_neg h3] at hk
            cases hk
      · rw [if_neg h1] at hk
        by_cases h4 : step.Action = "rag_search"
        · rw [if_pos h4] at hk
          by_cases h5 : (lookupJ params "query").isNone = true
          · rw [if_pos h5] at hk
            obtain rfl : "query" = k := Option.some_injective _ hk
            refine ⟨"RAG检索步骤缺少query参数", ?_, by decide⟩
            rw [hval]
            simp [validateSteps, hp, h1, h4, h5]
          · rw [if_neg h5] at hk
            cases hk
        · rw [if_neg h4] at hk
          by_cases h6 : step.Action = "reason"
          · rw [if_pos h6] at hk
            by_cases h7 : (lookupJ params "prompt").isNone = true
            · rw [if_pos h7] at hk
              obtain rfl : "prompt" = k := Option.some_injective _ hk
              refine ⟨"推理步骤缺少prompt参数", ?_, by decide⟩
              rw [hval]
              simp [validateSteps, hp, h1, h4, h6, h7]
            · rw [if_neg h7] at hk
              cases hk
          · rw [if_neg h6] at hk
            cases hk

/-- C4 (witness for the amended theorem): a concrete valid single-step plan is
accepted, and appending a reason step with an empty parameter map yields a
rejection whose message names the missing `prompt` field. -/
theorem c4_amended_witness :
    validatePlan ⟨"t", [⟨"reason", some [("prompt", JVal.jstr "p")], false⟩]⟩ = none ∧
    ∃ msg, validatePlan ⟨"t", [⟨"reason", some [("prompt", JVal.jstr "p")], false⟩,
                               ⟨"reason", some [], true⟩]⟩ = some msg ∧
           containsSubstr msg "prompt" = true :=
  ⟨c4_amended.1 _ (by decide),
   c4_amended.2 "t" [⟨"reason", some [("prompt", JVal.jstr "p")], false⟩] []
     ⟨"reason", some [], true⟩ "prompt" (by decide) (by decide) (by decide)⟩

/-! ## Fence-tolerance of extraction (C9) -/

/-- The backquote character (written via its code point). -/
def btick : Char := '\x60'

lemma fenceChars_eq : fenceChars = [btick, btick, btick] := by rfl

lemma isPrefixOf_append_left (x y l : List Char)
    (h : (x ++ y).isPrefixOf l = true) : x.isPrefixOf l = true := by
  rw [List.isPrefixOf_iff_prefix] at h ⊢
  exact (List.prefix_append x y).trans h

lemma findSub_jsonFence_none (t : List Char)
    (h : findSub t fenceChars = none) : findSub t jsonFenceChars = none := by
  induction t with
  | nil => decide
  | cons a t ih =>
    rw [findSub] at h ⊢
    by_cases hp : fenceChars.isPrefixOf (a :: t) = true
    · rw [if_pos hp] at h
      exact Option.noConfusion h
    · rw [if_neg hp] at h
      have ht : findSub t fenceChars = none := by
        cases hfs : findSub t fenceChars with
        | none => rfl
        | some v => rw [hfs] at h; exact Option.noConfusion h
      have hjp : ¬ jsonFenceChars.isPrefixOf (a :: t) = true := by
        intro hj
        exact hp (isPrefixOf_append_left fenceChars "json".toList (a :: t)
          (by rw [show fenceChars ++ "json".toList = jsonFenceChars by decide]; exact hj))
      rw [if_neg hjp, ih ht]
      rfl

lemma findSub_fence_cons_nl (c : List Char)
    (h : findSub c fenceChars = none) : findSub ('\n' :: c) fenceChars = none := by
  rw [findSub]
  have hp : ¬ fenceChars.isPrefixOf ('\n' :: c) = true := by
    rw [fenceChars_eq]
    simp [List.isPrefixOf, btick]
  rw [if_neg hp, h]
  rfl

lemma findSub_fence_close : ∀ c : List Char, findSub c fenceChars = none →
    findSub (c ++ '\n' :: fenceChars) fenceChars = some (c.length + 1) := by
  intro c
  induction c with
  | nil => intro _; decide
  | cons a c ih =>
    intro h
    rw [findSub] at h
    by_cases hp : fenceChars.isPrefixOf (a :: c) = true
    · rw [if_pos hp] at h
      exact Option.noConfusion h
    · rw [if_neg hp] at h
      have hc : findSub c fenceChars = none := by
        cases hfs : findSub c fenceChars with
        | none => rfl
        | some v => rw [hfs] at h; exact Option.noConfusion h
      have h2 := ih hc
      rw [List.cons_append, findSub]
      have hp2 : ¬ fenceChars.isPrefixOf (a :: (c ++ '\n' :: fenceChars)) = true := by
        cases c with
        | nil =>
          rw [fenceChars_eq]
          simp [List.isPrefixOf, btick]
        | cons x c1 =>
          cases c1 with
          | nil =>
            rw [fenceChars_eq]
            simp [List.isPrefixOf, btick]
          | cons y c2 =>
            intro hcontr
            apply hp
            rw [fenceChars_eq] at hcontr ⊢
            simp only [List.cons_append, List.isPrefixOf, Bool.and_eq_true,
              beq_iff_eq] at hcontr ⊢
            refine ⟨hcontr.1, hcontr.2.1, hcontr.2.2.1, ?_⟩
            simp [List.isPrefixOf]
      rw [if_neg hp2, h2]
      rfl

lemma skipWs_cons_nw (a : Char) (l : List Char) (h : isJsonWs a = false) :
    skipWs (a :: l) = a :: l := by
  rw [skipWs, h]
  simp

lemma trimWs_cons_ws (a : Char) (l : List Char) (h : isJsonWs a = true) :
    trimWs (a :: l) = trimWs l := by
  rw [trimWs, trimWs, skipWs, h]
  simp

lemma trimWs_concat_ws (a : Char) (h : isJsonWs a = true) :
    ∀ l : List Char, trimWs (l ++ [a]) = trimWs l := by
  intro l
  induction l with
  | nil =>
    simp [trimWs, skipWs, h]
  | cons x l ih =>
    by_cases hx : isJsonWs x = true
    · rw [List.cons_append, trimWs_cons_ws x _ hx, trimWs_cons_ws x _ hx, ih]
    · have hx' : isJsonWs x = false := by
        cases hxv : isJsonWs x
        · rfl
        · exact absurd hxv hx
      rw [trimWs, trimWs, List.cons_append, skipWs_cons_nw x _ hx',
        skipWs_cons_nw x _ hx']
      have hrev : (x :: (l ++ [a])).reverse = a :: (x :: l).reverse := by
        simp
      rw [hrev, skipWs, h]
      simp

lemma trimWs_newline_wrap (c : List Char) :
    trimWs ('\n' :: c ++ ['\n']) = trimWs c := by
  rw [List.cons_append, trimWs_cons_ws '\n' _ (by decide),
    trimWs_concat_ws '\n' (by decide) c]

lemma jsonUnmarshalPlan_newline_wrap (c : List Char) :
    jsonUnmarshalPlan ('\n' :: c ++ ['\n']) = jsonUnmarshalPlan c := by
  rw [jsonUnmarshalPlan, jsonUnmarshalPlan, trimWs_newline_wrap]

lemma pVal_btick (fuel : Nat) (cs : List Char) :
    pVal fuel (btick :: cs) = none := by
  cases fuel with
  | zero => rfl
  | succ n =>
    simp [pVal, pNum, btick]

lemma skipWs_append_nonws (c : Char) (hc : isJsonWs c = false) :
    ∀ l : List Char, skipWs (l ++ [c]) = skipWs l ++ [c] := by
  intro l
  induction l with
  | nil => simp [skipWs, hc]
  | cons x l ih =>
    by_cases hx : isJsonWs x = true
    · rw [List.cons_append, skipWs, hx, skipWs, hx]
      simp [ih]
    · have hx2 : isJsonWs x = false := by
        cases hxv : isJsonWs x
        · rfl
        · exact absurd hxv hx
      rw [List.cons_append, skipWs_cons_nw x _ hx2, skipWs_cons_nw x _ hx2]
      rfl

lemma trimWs_btick_head (m : List Char) :
    trimWs (btick :: m) = btick :: (skipWs m.reverse).reverse := by
  rw [trimWs, skipWs_cons_nw btick _ (by decide)]
  rw [show (btick :: m).reverse = m.reverse ++ [btick] by simp]
  rw [skipWs_append_nonws btick (by decide) m.reverse]
  simp

lemma jsonUnmarshalPlan_fenced_none (content : List Char) :
    jsonUnmarshalPlan (jsonFenceChars ++ '\n' :: (content ++ '\n' :: fenceChars))
      = none := by
  have hshape : jsonFenceChars ++ '\n' :: (content ++ '\n' :: fenceChars)
      = btick :: ("``json\n".toList ++ (content ++ '\n' :: fenceChars)) := by rfl
  rw [hshape, jsonUnmarshalPlan, trimWs_btick_head, pVal_btick]

lemma findSub_prefix_zero (p r : List Char) : findSub (p ++ r) p = some 0 := by
  rw [findSub.eq_def]
  rw [if_pos]
  rw [List.isPrefixOf_iff_prefix]
  exact List.prefix_append p r

lemma extract_fenced (content : List Char)
    (h : findSub content fenceChars = none) :
    extractJSONFromResponse (jsonFenceChars ++ '\n' :: (content ++ '\n' :: fenceChars))
      = '\n' :: content ++ ['\n'] := by
  have hassoc : jsonFenceChars ++ '\n' :: (content ++ '\n' :: fenceChars)
      = jsonFenceChars ++ (('\n' :: content) ++ ('\n' :: fenceChars)) := by simp
  have hfind := findSub_fence_close ('\n' :: content) (findSub_fence_cons_nl content h)
  rw [extractJSONFromResponse, findSub_prefix_zero]
  simp only [Nat.zero_add, hassoc, List.drop_left, hfind]
  rw [if_pos (by omega)]
  rw [show jsonFenceChars.length + (('\n' :: content).length + 1)
      - jsonFenceChars.length = ('\n' :: content).length + 1 by omega]
  rw [List.take_append 1]
  rfl

/-- C9 (counterexample): the fence-tolerance identity fails for JSON content
that itself contains the fence marker "```": the raw content (with "```"
inside a JSON string) parses to a plan, but the fenced form is truncated at
the inner "```" and fails with a decode error.  Parsing is thus not
fence-tolerant for every identical JSON content, as the claim states. -/
theorem c9_counterexample :
    ParseExecutionPlan
        ("\x7b\"thought\":\"use ``` fences\",\"steps\":[\x7b\"action\":\"reason\",\"parameters\":\x7b\"prompt\":\"p\"\x7d,\"should_continue\":false\x7d]\x7d")
      = Except.ok ⟨"use ``` fences",
          [⟨"reason", some [("prompt", JVal.jstr "p")], false⟩]⟩ ∧
    ParseExecutionPlan
        ("```json\n\x7b\"thought\":\"use ``` fences\",\"steps\":[\x7b\"action\":\"reason\",\"parameters\":\x7b\"prompt\":\"p\"\x7d,\"should_continue\":false\x7d]\x7d\n```")
      = Except.error "解析执行计划JSON失败" := by
  constructor
  · rfl
  · rfl

/-- C9 (amended): for JSON content that does not itself contain the fence
marker "```", extraction is fence-tolerant: if the raw content parses to a
plan, the same content wrapped in a "```json" fenced code block parses to the
identical plan. -/
theorem c9_amended (content : String) (p : ExecutionPlan)
    (hfence : containsSubstr content "```" = false)
    (hok : ParseExecutionPlan content = Except.ok p) :
    ParseExecutionPlan ("```json\n" ++ content ++ "\n```") = Except.ok p := by
  have hfindNone : findSub content.toList fenceChars = none := by
    rw [containsSubstr] at hfence
    cases hfs : findSub content.toList "```".toList with
    | none => exact hfs
    | some v => rw [hfs] at hfence; exact Bool.noConfusion hfence
  have hjf : findSub content.toList jsonFenceChars = none :=
    findSub_jsonFence_none _ hfindNone
  have hex : extractJSONFromResponse content.toList = [] := by
    rw [extractJSONFromResponse, hjf, hfindNone]
  have huc : jsonUnmarshalPlan content.toList = some p ∧ validatePlan p = none := by
    rw [ParseExecutionPlan, ParseExecutionPlanL] at hok
    cases hu : jsonUnmarshalPlan content.toList with
    | some plan =>
      simp only [hu] at hok
      cases hv : validatePlan plan with
      | some e =>
        simp only [hv] at hok
        exact Except.noConfusion hok
      | none =>
        simp only [hv] at hok
        have hpe := Except.ok.inj hok
        subst hpe
        exact ⟨rfl, hv⟩
    | none =>
      simp only [hu, hex, List.isEmpty_nil, if_true] at hok
      exact Except.noConfusion hok
  have hlist : ("```json\n" ++ content ++ "\n```").toList
      = jsonFenceChars ++ '\n' :: (content.toList ++ '\n' :: fenceChars) := by rfl
  rw [ParseExecutionPlan, ParseExecutionPlanL, hlist]
  simp only [jsonUnmarshalPlan_fenced_none, extract_fenced content.toList hfindNone,
    jsonUnmarshalPlan_newline_wrap, huc.1, huc.2]
  simp [huc.2]

/-- C9 (witness for the amended theorem): a concrete valid plan parses to the
same value raw and fenced. -/
theorem c9_amended_witness :
    ParseExecutionPlan
        ("```json\n\x7b\"thought\":\"t\",\"steps\":[\x7b\"action\":\"reason\",\"parameters\":\x7b\"prompt\":\"p\"\x7d,\"should_continue\":false\x7d]\x7d\n```")
      = Except.ok ⟨"t", [⟨"reason", some [("prompt", JVal.jstr "p")], false⟩]⟩ :=
  c9_amended
    "\x7b\"thought\":\"t\",\"steps\":[\x7b\"action\":\"reason\",\"parameters\":\x7b\"prompt\":\"p\"\x7d,\"should_continue\":false\x7d]\x7d"
    ⟨"t", [⟨"reason", some [("prompt", JVal.jstr "p")], false⟩]⟩
    (by decide) (by rfl)

/-! ## Orchestration engine (`internal/core/agent.go`)

External collaborators (model backend, tool backend, retrieval backend) are
the interface functions of `AgentEnv`; `context`/timeout handling, the logger,
and event timestamps / `Data` payloads are not modelled (no claim depends on
them).  Go panics from unchecked type assertions are modelled by the
`GoRes.panicked` constructor, which propagates without being caught (the
engine has no `recover`). -/

/-- Outcome of a Go computation: normal value, error return, or panic. -/
inductive GoRes (α : Type) where
  | ok (a : α)
  | err (e : String)
  | panicked (msg : String)
deriving Repr

def GoRes.bind {α β : Type} : GoRes α → (α → GoRes β) → GoRes β
  | GoRes.ok a, f => f a
  | GoRes.err e, _ => GoRes.err e
  | GoRes.panicked m, _ => GoRes.panicked m

/-- `AgentStatus` from `agent.go`. -/
inductive AgentStatus where
  | thinking
  | planning
  | executing
  | completed
  | error
deriving DecidableEq, Repr

/-- `AgentEvent` from `agent.go` (`Timestamp` and the free-form `Data` payload
are not modelled). -/
structure AgentEvent where
  id : String
  status : AgentStatus
  message : String
deriving DecidableEq, Repr

/-- A computation that emits SSE events in order and produces a `GoRes`. -/
structure EmitM (α : Type) where
  events : List AgentEvent
  result : GoRes α
deriving Repr

/-- `Document`/`SearchResult` from the retrieval engine, as consumed by the
agent.  `Similarity` is a float64 rendered with `%.2f`; the rendered text is
carried as `SimilarityStr` (float formatting is not modelled; no claim
inspects it). -/
structure Document where
  Content : String
deriving DecidableEq, Repr

structure SearchResult where
  Document : Document
  SimilarityStr : String
deriving DecidableEq, Repr

/-- The agent with its configured collaborators (`Agent` struct plus the
interface contracts of §6): `modelGen` is `Model.Generate`, `toolExec` is
`tool.Manager.ExecuteTool`, `toolNames` the names from `ListTools`,
`ragSearch` is `rag.Engine.Search`; the `has*` flags model the nil checks of
the corresponding fields; `maxIterations` is `config.MaxIterations`. -/
structure AgentEnv where
  hasModel : Bool
  modelGen : String → Except String String
  hasToolManager : Bool
  toolNames : List String
  toolExec : String → String → Except String String
  hasRAG : Bool
  ragSearch : String → Int → Except String (List SearchResult)
  hasSSE : Bool
  maxIterations : Nat

/-- Go `fmt` `%v` rendering of a `[]string`. -/
def goSliceFmt (xs : List String) : String :=
  "[" ++ String.intercalate " " xs ++ "]"

/-- `formatRAGResults` from `agent.go` (lines 658-671). -/
def formatRAGResultsAux : Nat → List SearchResult → String
  | _, [] => ""
  | i, r :: rest =>
    toString (i + 1) ++ ". " ++ r.Document.Content ++ " (相似度: " ++
      r.SimilarityStr ++ ")\n" ++ formatRAGResultsAux (i + 1) rest

def formatRAGResults (results : List SearchResult) : String :=
  if results.isEmpty then "未找到相关结果"
  else "检索到以下相关信息:\n" ++ formatRAGResultsAux 0 results

/-- The `availableTools` slice computed by both prompt builders. -/
def availableToolsOf (env : AgentEnv) : List String :=
  if env.hasToolManager then env.toolNames else []

/-- `Agent.buildThinkPrompt` from `agent.go` (lines 482-521). -/
def buildThinkPrompt (env : AgentEnv) (query : String) (iteration : Nat) : String :=
  "你是一个智能AI助手，需要分析用户问题并制定执行计划。\n\n当前轮次: 第 "
    ++ toString iteration ++ "用户问题: " ++ query ++ "\n\n可用工具: "
    ++ goSliceFmt (availableToolsOf env)
    ++ "\n\n请分析问题并制定执行计划，使用以下JSON格式:\n\n\x7b\n  \"thought\": \"你的思考过程\",\n  \"steps\": [\n    \x7b\n      \"action\": \"具体执行动作(search_tool/rag_search/reason)\",\n      \"parameters\": \x7b\n        \"相关参数\": \"值\"\n      \x7d,\n      \"should_continue\": true/false\n    \x7d\n  ]\n\x7d\n\n执行动作说明:\n- search_tool:调用工具，参数包括tool_name, input\n- rag_search:向检索，参数包括query, top_k\n- reason:推分析，参数包括prompt\n\n请只返回JSON格式的计划，不要其他说明。"

/-- `Agent.buildRetryThinkPrompt` from `agent.go` (lines 439-480). -/
def buildRetryThinkPrompt (env : AgentEnv) (query : String) (retryCount : Nat) : String :=
  "你是一个智能AI助手，之前的执行计划解析失败了，请重新分析用户问题并制定正确的执行计划。\n\n用户问题: "
    ++ query ++ "\n重试次数: 第" ++ toString retryCount ++ "次\n\n可用工具: "
    ++ goSliceFmt (availableToolsOf env)
    ++ "\n\n请重新分析问题并制定执行计划，使用以下JSON格式:\n\n\x7b\n  \"thought\": \"你的思考过程，需要更详细地分析问题\",\n  \"steps\": [\n    \x7b\n      \"action\": \"具体执行动作(search_tool/rag_search/reason)\",\n      \"parameters\": \x7b\n        \"相关参数\": \"值\"\n      \x7d,\n      \"should_continue\": true/false\n    \x7d\n  ]\n\x7d\n\n注意：\n1. 请确保JSON格式正确\n2. 思考过程要更详细和具体\n3. 步骤要逻辑清晰，避免循环依赖\n4. 确保计划能够解决用户的核心问题\n\n请只返回JSON格式的计划，不要其他说明。"

/-- Unchecked Go type assertion `step.Parameters[key].(string)`: indexing a
nil map yields an untyped nil, and asserting a missing key or a non-string
value panics (`interface conversion`). -/
def assertStringParam (params : Option (List (String × JVal))) (key : String) :
    GoRes String :=
  match params with
  | none => GoRes.panicked "interface conversion: interface \x7b\x7d is nil, not string"
  | some m =>
    match lookupJ m key with
    | some (JVal.jstr s) => GoRes.ok s
    | _ => GoRes.panicked "interface conversion: interface \x7b\x7d is not string"

/-- Checked Go type assertion `v, ok := step.Parameters[key].(string)`:
never panics, `none` models `ok == false`. -/
def getStringParam (params : Option (List (String × JVal))) (key : String) :
    Option String :=
  match params with
  | none => none
  | some m =>
    match lookupJ m key with
    | some (JVal.jstr s) => some s
    | _ => none

/-- Truncating conversion `int(k)` of a float64 that arrived as a JSON number
lexeme (integral part only; exponent forms are not modelled — `top_k` is not
touched by any claim). -/
def digitsToNat : List Char → Nat → Nat
  | [], acc => acc
  | c :: rest, acc =>
    if c.isDigit then digitsToNat rest (acc * 10 + (c.toNat - '0'.toNat)) else acc

def numLexemeToInt (lex : String) : Int :=
  match lex.toList with
  | '-' :: rest => - Int.ofNat (digitsToNat rest 0)
  | l => Int.ofNat (digitsToNat l 0)

namespace Agent

/-- `Agent.executeToolStep` (`agent.go` lines 283-298). -/
def executeToolStep (env : AgentEnv) (step : PlanStep) : GoRes String :=
  if !env.hasToolManager then GoRes.err "工具管理器未配置"
  else
    (assertStringParam step.Parameters "tool_name").bind fun toolName =>
      (assertStringParam step.Parameters "input").bind fun toolInput =>
        match env.toolExec toolName toolInput with
        | Except.ok r => GoRes.ok r
        | Except.error e => GoRes.err ("工具调用失败 " ++ toolName ++ ": " ++ e)

/-- `Agent.executeRAGStep` (`agent.go` lines 300-318). -/
def executeRAGStep (env : AgentEnv) (step : PlanStep) : GoRes String :=
  if !env.hasRAG then GoRes.err "RAG引擎未配置"
  else
    (assertStringParam step.Parameters "query").bind fun query =>
      let topK : Int :=
        match step.Parameters with
        | some m =>
          match lookupJ m "top_k" with
          | some (JVal.jnum lex) => numLexemeToInt lex
          | _ => 5
        | none => 5
      match env.ragSearch query topK with
      | Except.ok results => GoRes.ok (formatRAGResults results)
      | Except.error e => GoRes.err ("RAG检索失败: " ++ e)

/-- `Agent.executeReasonStep` (`agent.go` lines 320-330). -/
def executeReasonStep (env : AgentEnv) (step : PlanStep) : GoRes String :=
  (assertStringParam step.Parameters "prompt").bind fun prompt =>
    match env.modelGen prompt with
    | Except.ok r => GoRes.ok r
    | Except.error e => GoRes.err ("推理失败: " ++ e)

/-- `Agent.executeStep` (`agent.go` lines 269-281). -/
def executeStep (env : AgentEnv) (step : PlanStep) : GoRes String :=
  if step.Action = "search_tool" then executeToolStep env step
  else if step.Action = "rag_search" then executeRAGStep env step
  else if step.Action = "reason" then executeReasonStep env step
  else GoRes.err ("未知的执行动作: " ++ step.Action)

/-- `Agent.generateAlternativeInputs` (`agent.go` lines 618-635). -/
def generateAlternativeInputs (step : PlanStep) (history : List String) :
    List String :=
  match getStringParam step.Parameters "input" with
  | none => []
  | some input =>
    if history.isEmpty then [input]
    else [input, input ++ " 基于之前的执行结果", input ++ " 结合历史信息"]

/-- The retry loop inside `Agent.recoverToolError`. -/
def tryToolInputs (env : AgentEnv) (toolName : String) : List String → GoRes String
  | [] => GoRes.err "所有替代方案都失败"
  | input :: rest =>
    match env.toolExec toolName input with
    | Except.ok r => GoRes.ok r
    | Except.error _ => tryToolInputs env toolName rest

/-- `Agent.recoverToolError` (`agent.go` lines 547-566). -/
def recoverToolError (env : AgentEnv) (step : PlanStep) (history : List String) :
    GoRes String :=
  if !env.hasToolManager then GoRes.err "工具管理器未配置，无法恢复"
  else
    (assertStringParam step.Parameters "tool_name").bind fun toolName =>
      tryToolInputs env toolName (generateAlternativeInputs step history)

/-- `Agent.generateAlternativeQueries` (`agent.go` lines 637-656).  Go indexes
bytes in `query[:len(query)-5]`; modelled at character level (all inputs
exercised here are ASCII). -/
def generateAlternativeQueries (query : String) (history : List String) :
    List String :=
  let queries := [query]
  let queries :=
    if query.length > 10 then
      queries ++ [String.mk (query.toList.take (query.length - 5))]
    else queries
  match history.getLast? with
  | none => queries
  | some lastResult =>
    match goFields lastResult with
    | [] => queries
    | w :: _ => queries ++ [query ++ " " ++ w]

/-- The retry loop inside `Agent.recoverRAGError` (accepting the first
non-empty result set). -/
def tryRagQueries (env : AgentEnv) : List String → GoRes String
  | [] => GoRes.err "所有替代查询都失败"
  | q :: rest =>
    match env.ragSearch q 3 with
    | Except.ok results =>
      if results.isEmpty then tryRagQueries env rest
      else GoRes.ok (formatRAGResults results)
    | Except.error _ => tryRagQueries env rest

/-- `Agent.recoverRAGError` (`agent.go` lines 568-587). -/
def recoverRAGError (env : AgentEnv) (step : PlanStep) (history : List String) :
    GoRes String :=
  if !env.hasRAG then GoRes.err "RAG引擎未配置，无法恢复"
  else
    (assertStringParam step.Parameters "query").bind fun query =>
      tryRagQueries env (generateAlternativeQueries query history)

/-- `Agent.recoverReasonError` (`agent.go` lines 589-603). -/
def recoverReasonError (env : AgentEnv) (step : PlanStep) (history : List String) :
    GoRes String :=
  (assertStringParam step.Parameters "prompt").bind fun originalPrompt =>
    let recoveryPrompt :=
      "之前的推理过程出现了问题，请基于以下历史信息重新思考：\n\n历史执行结果: "
        ++ String.intercalate "; " history ++ "\n\n原始问题: " ++ originalPrompt
        ++ "\n\n请重新分析并给出合理的回答。"
    match env.modelGen recoveryPrompt with
    | Except.ok r => GoRes.ok r
    | Except.error e => GoRes.err ("恢复推理失败: " ++ e)

/-- `Agent.defaultRecovery` (`agent.go` lines 605-616). -/
def defaultRecovery (env : AgentEnv) (history : List String) (errorMsg : String) :
    GoRes String :=
  let recoveryPrompt :=
    "执行过程中遇到错误: " ++ errorMsg ++ "\n\n历史执行情况: "
      ++ String.intercalate "; " history
      ++ "\n\n请基于现有信息给出一个合理的回答或解决方案。"
  match env.modelGen recoveryPrompt with
  | Except.ok r => GoRes.ok r
  | Except.error e => GoRes.err ("默认恢复策略失败: " ++ e)

/-- `Agent.recoverFromError` (`agent.go` lines 523-545): dispatch on the
failing step's action and the error text. -/
def recoverFromError (env : AgentEnv) (step : PlanStep) (errorMsg : String)
    (history : List String) : GoRes String :=
  if decide (step.Action = "search_tool") && containsSubstr errorMsg "工具调用失败" then
    recoverToolError env step history
  else if decide (step.Action = "rag_search") && containsSubstr errorMsg "RAG检索失败" then
    recoverRAGError env step history
  else if decide (step.Action = "reason") && containsSubstr errorMsg "推理失败" then
    recoverReasonError env step history
  else defaultRecovery env history errorMsg

end Agent

/-- `Agent.sendEvent` (`agent.go` lines 417-437): broadcast through the SSE
broker when configured (the logger side is not modelled). -/
def sendEvent (env : AgentEnv) (id : String) (status : AgentStatus)
    (message : String) : List AgentEvent :=
  if env.hasSSE then [⟨id, status, message⟩] else []

namespace Agent

/-- `Agent.validatePlan` step loop (`agent.go` lines 342-387). -/
def validateStepsSem (env : AgentEnv) : Nat → List PlanStep → Option String
  | _, [] => none
  | i, step :: rest =>
    if step.Action = "search_tool" then
      if !env.hasToolManager then
        some ("步骤 " ++ toString (i + 1) ++ "需要工具调用，但工具管理器未配置")
      else
        match getStringParam step.Parameters "tool_name" with
        | none => some ("步骤 " ++ toString (i + 1) ++ "的工具调用缺少tool_name参数")
        | some toolName =>
          if toolName = "" then
            some ("步骤 " ++ toString (i + 1) ++ "的工具调用缺少tool_name参数")
          else if !(env.toolNames.contains toolName) then
            some ("步骤 " ++ toString (i + 1) ++ "指定的工具 " ++ toolName ++ " 不存在")
          else validateStepsSem env (i + 1) rest
    else if step.Action = "rag_search" then
      if !env.hasRAG then
        some ("步骤 " ++ toString (i + 1) ++ "需要RAG检索，但RAG引擎未配置")
      else
        match getStringParam step.Parameters "query" with
        | none => some ("步骤 " ++ toString (i + 1) ++ "的RAG检索缺少query参数")
        | some q =>
          if q = "" then some ("步骤 " ++ toString (i + 1) ++ "的RAG检索缺少query参数")
          else validateStepsSem env (i + 1) rest
    else if step.Action = "reason" then
      match getStringParam step.Parameters "prompt" with
      | none => some ("步骤 " ++ toString (i + 1) ++ "的推理缺少prompt参数")
      | some _ => validateStepsSem env (i + 1) rest
    else validateStepsSem env (i + 1) rest

/-- `Agent.validatePlan` (`agent.go` lines 332-395): structural checks per
step, then the relevance gate.  The `plan == nil` guard is not representable
(plans are values here). -/
def validatePlan (env : AgentEnv) (plan : ExecutionPlan) (query : String) :
    Option String :=
  if plan.Steps.isEmpty then some "执行计划必须包含至少一个步骤"
  else
    match validateStepsSem env 0 plan.Steps with
    | some e => some e
    | none =>
      if !isPlanRelevant plan query then some "执行计划与用户查询的相关性不足"
      else none

/-- `Agent.thinkWithRetryInternal` (`agent.go` lines 118-139): one model call
with the retry prompt, one parse; no further retry and no semantic
validation. -/
def thinkWithRetryInternal (env : AgentEnv) (query : String) (retryCount : Nat) :
    Except String ExecutionPlan :=
  match env.modelGen (buildRetryThinkPrompt env query retryCount) with
  | Except.error e => Except.error ("重试思考时模型生成失败: " ++ e)
  | Except.ok response =>
    match ParseExecutionPlan response with
    | Except.error e => Except.error ("重试解析执行计划失败: " ++ e)
    | Except.ok plan => Except.ok plan

/-- `Agent.think` (`agent.go` lines 182-213): one model call, parse; on parse
failure retry once via `thinkWithRetryInternal` when the loop iteration is
below 3; on success validate semantically (validation failures are not
retried). -/
def think (env : AgentEnv) (query : String) (iteration : Nat) :
    Except String ExecutionPlan :=
  match env.modelGen (buildThinkPrompt env query iteration) with
  | Except.error e => Except.error ("模型生成失败: " ++ e)
  | Except.ok response =>
    match ParseExecutionPlan response with
    | Except.error e =>
      if iteration < 3 then thinkWithRetryInternal env query (iteration + 1)
      else Except.error ("解析执行计划失败: " ++ e)
    | Except.ok plan =>
      match validatePlan env plan query with
      | some e => Except.error ("执行计划验证失败: " ++ e)
      | none => Except.ok plan

/-- The step loop of `Agent.execute` (`agent.go` lines 215-267): sequential
execution with per-step events, recovery on failure, and the
`shouldContinue && i < len(steps)-1` continue/break control. -/
def executeSteps (env : AgentEnv) :
    List PlanStep → Nat → String → Bool → List String → EmitM (String × Bool)
  | [], _, result, shouldContinue, _ => ⟨[], GoRes.ok (result, shouldContinue)⟩
  | step :: rest, i, _, _, history =>
    let evStart := sendEvent env ("step_" ++ toString (i + 1) ++ "_start")
      AgentStatus.executing ("执行步骤 " ++ toString (i + 1) ++ ": " ++ step.Action)
    match executeStep env step with
    | GoRes.panicked m => ⟨evStart, GoRes.panicked m⟩
    | GoRes.ok stepResult =>
      let evDone := sendEvent env ("step_" ++ toString (i + 1) ++ "_complete")
        AgentStatus.executing ("步骤 " ++ toString (i + 1) ++ "完成")
      if step.ShouldContinue && !rest.isEmpty then
        let nxt := executeSteps env rest (i + 1) stepResult step.ShouldContinue
          (history ++ [stepResult])
        ⟨evStart ++ evDone ++ nxt.events, nxt.result⟩
      else ⟨evStart ++ evDone, GoRes.ok (stepResult, step.ShouldContinue)⟩
    | GoRes.err e =>
      let errorMsg := "执行步骤 " ++ toString (i + 1) ++ "失败: " ++ e
      let evErr := sendEvent env ("step_" ++ toString (i + 1) ++ "_error")
        AgentStatus.error errorMsg
      match recoverFromError env step e history with
      | GoRes.ok stepResult =>
        let evRec := sendEvent env ("step_" ++ toString (i + 1) ++ "_recovered")
          AgentStatus.executing "步骤执行已恢复"
        let evDone := sendEvent env ("step_" ++ toString (i + 1) ++ "_complete")
          AgentStatus.executing ("步骤 " ++ toString (i + 1) ++ "完成")
        if step.ShouldContinue && !rest.isEmpty then
          let nxt := executeSteps env rest (i + 1) stepResult step.ShouldContinue
            (history ++ [stepResult])
          ⟨evStart ++ evErr ++ evRec ++ evDone ++ nxt.events, nxt.result⟩
        else ⟨evStart ++ evErr ++ evRec ++ evDone,
          GoRes.ok (stepResult, step.ShouldContinue)⟩
      | GoRes.err re =>
        ⟨evStart ++ evErr, GoRes.err (errorMsg ++ "，恢复失败: " ++ re)⟩
      | GoRes.panicked m => ⟨evStart ++ evErr, GoRes.panicked m⟩

/-- `Agent.execute` (`agent.go` lines 215-267). -/
def execute (env : AgentEnv) (plan : ExecutionPlan) : EmitM (String × Bool) :=
  executeSteps env plan.Steps 0 "" false []

/-- The iteration loop of `Agent.thinkExecuteLoop` (`agent.go` lines 141-180);
the Go loop condition `iteration < MaxIterations` with `iteration++` is
embedded by counting the remaining iterations `MaxIterations - iteration`. -/
def thinkExecuteLoopAux (env : AgentEnv) :
    Nat → Nat → String → EmitM String
  | 0, _, _ => ⟨[], GoRes.err ("超过最大迭代次数 " ++ toString env.maxIterations)⟩
  | Nat.succ remaining, iteration, currentQuery =>
    let it := iteration + 1
    let evThink := sendEvent env ("think_" ++ toString it) AgentStatus.thinking
      ("第 " ++ toString it ++ "中...")
    match think env currentQuery it with
    | Except.error e => ⟨evThink, GoRes.err ("思考阶段出错: " ++ e)⟩
    | Except.ok plan =>
      let evPlan := sendEvent env ("plan_" ++ toString it) AgentStatus.planning
        "制定执行计划"
      let evExec := sendEvent env ("execute_" ++ toString it) AgentStatus.executing
        "执行计划中..."
      let ex := execute env plan
      match ex.result with
      | GoRes.err e =>
        ⟨evThink ++ evPlan ++ evExec ++ ex.events, GoRes.err ("执行阶段出错: " ++ e)⟩
      | GoRes.panicked m =>
        ⟨evThink ++ evPlan ++ evExec ++ ex.events, GoRes.panicked m⟩
      | GoRes.ok (result, shouldContinue) =>
        if !shouldContinue then
          ⟨evThink ++ evPlan ++ evExec ++ ex.events, GoRes.ok result⟩
        else
          let nxt := thinkExecuteLoopAux env remaining it result
          ⟨evThink ++ evPlan ++ evExec ++ ex.events ++ nxt.events, nxt.result⟩

/-- `Agent.thinkExecuteLoop` (`agent.go` lines 141-180). -/
def thinkExecuteLoop (env : AgentEnv) (query : String) : EmitM String :=
  thinkExecuteLoopAux env env.maxIterations 0 query

/-- `Agent.Execute` (`agent.go` lines 93-116).  The `context.WithTimeout`
deadline is not modelled. -/
def Execute (env : AgentEnv) (query : String) : EmitM String :=
  if !env.hasModel then ⟨[], GoRes.err "model not configured"⟩
  else
    let evStart := sendEvent env "start" AgentStatus.thinking "开始处理请求"
    let res := thinkExecuteLoop env query
    match res.result with
    | GoRes.err e =>
      ⟨evStart ++ res.events ++
        sendEvent env "error" AgentStatus.error ("执行出错: " ++ e), GoRes.err e⟩
    | GoRes.ok r =>
      ⟨evStart ++ res.events ++
        sendEvent env "complete" AgentStatus.completed "任务完成", GoRes.ok r⟩
    | GoRes.panicked m => ⟨evStart ++ res.events, GoRes.panicked m⟩

end Agent

/-- Number of emitted events with a given status. -/
def countStatus (evs : List AgentEvent) (st : AgentStatus) : Nat :=
  (evs.filter (fun e => decide (e.status = st))).length

/-! ## The "2+2 is what?" scenario (C3) -/

/-- The model response carrying exactly the plan of the C3 scenario:
thought "solve arithmetic", one Reason step with prompt "2+2",
continue false. -/
def planJsonC3 : String :=
  "\x7b\"thought\":\"solve arithmetic\",\"steps\":[\x7b\"action\":\"reason\",\"parameters\":\x7b\"prompt\":\"2+2\"\x7d,\"should_continue\":false\x7d]\x7d"

/-- The same plan with the thought amended to mention a query keyword. -/
def planJsonC3b : String :=
  "\x7b\"thought\":\"solve arithmetic 2+2\",\"steps\":[\x7b\"action\":\"reason\",\"parameters\":\x7b\"prompt\":\"2+2\"\x7d,\"should_continue\":false\x7d]\x7d"

/-- Environment of the C3 scenario: the model answers the Reason prompt
"2+2" with "4" and every other (think) prompt with the scenario plan. -/
def envC3 : AgentEnv :=
  ⟨true, fun p => Except.ok (if p = "2+2" then "4" else planJsonC3),
   false, [], fun _ _ => Except.error "no tool",
   false, fun _ _ => Except.error "no rag", true, 5⟩

def envC3b : AgentEnv :=
  ⟨true, fun p => Except.ok (if p = "2+2" then "4" else planJsonC3b),
   false, [], fun _ _ => Except.error "no tool",
   false, fun _ _ => Except.error "no rag", true, 5⟩

/-- C3 (counterexample): for the goal "2+2 is what?" and a model that
produces exactly the claimed plan (thought "solve arithmetic"), `Execute`
does NOT return the model's reasoning output: the relevance gate rejects the
plan ("solve arithmetic" contains neither "2+2" nor "what?"), the run fails
with the validation error, and zero Completed events are emitted. -/
theorem c3_counterexample :
    ParseExecutionPlan planJsonC3 =
      Except.ok ⟨"solve arithmetic",
        [⟨"reason", some [("prompt", JVal.jstr "2+2")], false⟩]⟩ ∧
    (Agent.Execute envC3 "2+2 is what?").result =
      GoRes.err "思考阶段出错: 执行计划验证失败: 执行计划与用户查询的相关性不足" ∧
    countStatus (Agent.Execute envC3 "2+2 is what?").events AgentStatus.completed
      = 0 := by
  refine ⟨rfl, rfl, rfl⟩

/-- C3 (amended): with the scenario's thought amended to mention the query
keyword "2+2" (so it passes the relevance gate), `Execute` returns the
model's reasoning output "4" as the final answer and exactly one Completed
event is emitted. -/
theorem c3_amended :
    ParseExecutionPlan planJsonC3b =
      Except.ok ⟨"solve arithmetic 2+2",
        [⟨"reason", some [("prompt", JVal.jstr "2+2")], false⟩]⟩ ∧
    (Agent.Execute envC3b "2+2 is what?").result = GoRes.ok "4" ∧
    countStatus (Agent.Execute envC3b "2+2 is what?").events AgentStatus.completed
      = 1 := by
  refine ⟨rfl, rfl, rfl⟩

/-! ## Think-phase retry behaviour (C1) -/

/-- A structurally valid plan whose thought is unrelated to the query
"alpha beta" (rejected by the relevance gate). -/
def irrelevantJsonC1 : String :=
  "\x7b\"thought\":\"zzz qqq\",\"steps\":[\x7b\"action\":\"reason\",\"parameters\":\x7b\"prompt\":\"pp\"\x7d,\"should_continue\":false\x7d]\x7d"

/-- A structurally valid plan whose thought mentions the query words. -/
def goodJsonC1 : String :=
  "\x7b\"thought\":\"alpha beta plan\",\"steps\":[\x7b\"action\":\"reason\",\"parameters\":\x7b\"prompt\":\"pp\"\x7d,\"should_continue\":false\x7d]\x7d"

/-- Model that answers the retry prompt (recognised by its "重试次数" marker)
with a perfectly good plan, and every think prompt with an irrelevant one. -/
def envC1 : AgentEnv :=
  ⟨true,
   fun p => Except.ok (if containsSubstr p "重试次数" then goodJsonC1 else irrelevantJsonC1),
   false, [], fun _ _ => Except.error "no tool",
   false, fun _ _ => Except.error "no rag", true, 5⟩

/-- Model whose every response is unparseable. -/
def envC1bad : AgentEnv :=
  ⟨true, fun _ => Except.ok "not json",
   false, [], fun _ _ => Except.error "no tool",
   false, fun _ _ => Except.error "no rag", true, 5⟩

/-- Model whose think response is unparseable and whose retry response
(recognised by the "重试次数" marker) is a good plan. -/
def envC1retry : AgentEnv :=
  ⟨true,
   fun p => Except.ok (if containsSubstr p "重试次数" then goodJsonC1 else "not json"),
   false, [], fun _ _ => Except.error "no tool",
   false, fun _ _ => Except.error "no rag", true, 5⟩

/-- C1 (counterexample): a relevance-validation failure during Think is
surfaced immediately with ZERO retries — `think` returns the validation error
even though the model would answer the retry prompt with a plan that parses
(second and third conjuncts), so the engine did not retry even once, let
alone up to 3 times.  Also, with a model whose every response is unparseable,
the think step performs exactly one retry and surfaces the retry's parse
error (last conjunct), not a third or fourth attempt. -/
theorem c1_counterexample :
    Agent.think envC1 "alpha beta" 1 =
      Except.error "执行计划验证失败: 执行计划与用户查询的相关性不足" ∧
    envC1.modelGen (buildRetryThinkPrompt envC1 "alpha beta" 2) =
      Except.ok goodJsonC1 ∧
    ParseExecutionPlan goodJsonC1 =
      Except.ok ⟨"alpha beta plan",
        [⟨"reason", some [("prompt", JVal.jstr "pp")], false⟩]⟩ ∧
    Agent.think envC1bad "alpha beta" 1 =
      Except.error "重试解析执行计划失败: 无法从响应中提取JSON" := by
  refine ⟨rfl, rfl, rfl, rfl⟩

/-- C1 (amended): during Think, only a PARSE failure is retried, exactly once
(one `thinkWithRetryInternal` call) and only when the loop iteration is below
3; the retry's own parse failure is surfaced without further retries; a plan
parsed on retry is accepted without any semantic validation; a validation
(structural or relevance) failure is surfaced immediately with no retry; and
at iteration 3 or beyond, a parse failure is surfaced directly. -/
theorem c1_amended
    (env1 env2 env3 env4 : AgentEnv) (q1 q2 q3 q4 : String)
    (respA respB respC respD respE respF : String)
    (p1 p3 : ExecutionPlan) (e pe pe2 pe3 pe4 : String) (it4 : Nat)
    (h1 : env1.modelGen (buildThinkPrompt env1 q1 1) = Except.ok respA)
    (h2 : ParseExecutionPlan respA = Except.ok p1)
    (h3 : Agent.validatePlan env1 p1 q1 = some e)
    (h4 : env2.modelGen (buildThinkPrompt env2 q2 1) = Except.ok respB)
    (h5 : ParseExecutionPlan respB = Except.error pe)
    (h6 : env2.modelGen (buildRetryThinkPrompt env2 q2 2) = Except.ok respC)
    (h7 : ParseExecutionPlan respC = Except.error pe2)
    (h8 : env3.modelGen (buildThinkPrompt env3 q3 1) = Except.ok respD)
    (h9 : ParseExecutionPlan respD = Except.error pe3)
    (h10 : env3.modelGen (buildRetryThinkPrompt env3 q3 2) = Except.ok respE)
    (h11 : ParseExecutionPlan respE = Except.ok p3)
    (h12 : 3 ≤ it4)
    (h13 : env4.modelGen (buildThinkPrompt env4 q4 it4) = Except.ok respF)
    (h14 : ParseExecutionPlan respF = Except.error pe4) :
    Agent.think env1 q1 1 = Except.error ("执行计划验证失败: " ++ e) ∧
    Agent.think env2 q2 1 = Except.error ("重试解析执行计划失败: " ++ pe2) ∧
    Agent.think env3 q3 1 = Except.ok p3 ∧
    Agent.think env4 q4 it4 = Except.error ("解析执行计划失败: " ++ pe4) := by
  refine ⟨?_, ?_, ?_, ?_⟩
  · simp only [Agent.think, h1, h2, h3]
  · simp only [Agent.think, h4, h5, Agent.thinkWithRetryInternal, h6, h7]
    rw [if_pos (by omega)]
  · simp only [Agent.think, h8, h9, Agent.thinkWithRetryInternal, h10, h11]
    rw [if_pos (by omega)]
  · simp only [Agent.think, h13, h14]
    rw [if_neg (by omega)]

/-- C1 (witness for the amended theorem): the four behaviours at concrete
environments. -/
theorem c1_amended_witness :
    Agent.think envC1 "alpha beta" 1 =
      Except.error ("执行计划验证失败: " ++ "执行计划与用户查询的相关性不足") ∧
    Agent.think envC1bad "alpha beta" 1 =
      Except.error ("重试解析执行计划失败: " ++ "无法从响应中提取JSON") ∧
    Agent.think envC1retry "alpha beta" 1 =
      Except.ok ⟨"alpha beta plan",
        [⟨"reason", some [("prompt", JVal.jstr "pp")], false⟩]⟩ ∧
    Agent.think envC1bad "alpha beta" 4 =
      Except.error ("解析执行计划失败: " ++ "无法从响应中提取JSON") :=
  c1_amended envC1 envC1bad envC1retry envC1bad
    "alpha beta" "alpha beta" "alpha beta" "alpha beta"
    irrelevantJsonC1 "not json" "not json" "not json" goodJsonC1 "not json"
    ⟨"zzz qqq", [⟨"reason", some [("prompt", JVal.jstr "pp")], false⟩]⟩
    ⟨"alpha beta plan", [⟨"reason", some [("prompt", JVal.jstr "pp")], false⟩]⟩
    "执行计划与用户查询的相关性不足"
    "无法从响应中提取JSON" "无法从响应中提取JSON" "无法从响应中提取JSON" "无法从响应中提取JSON"
    4 rfl rfl rfl rfl rfl rfl rfl rfl rfl rfl rfl (by decide) rfl rfl

/-! ## Valid-but-panicking ToolCall step (C10) -/

/-- A ToolCall step carrying a present but NON-STRING `input` (a JSON
number): the structural validator only checks key presence, and the semantic
validator never looks at `input` at all. -/
def stepC10 : PlanStep :=
  ⟨"search_tool",
   some [("tool_name", JVal.jstr "calc"), ("input", JVal.jnum "42")], false⟩

def planC10 : ExecutionPlan := ⟨"run calc tool", [stepC10]⟩

/-- Environment with the tool "calc" registered and a working tool backend. -/
def envC10 : AgentEnv :=
  ⟨true, fun _ => Except.ok "x",
   true, ["calc"], fun _ _ => Except.ok "tool result",
   false, fun _ _ => Except.error "no rag", true, 5⟩

/-- C10: the plan `planC10` passes both the structural validator
(`plan.go validatePlan`) and the Engine's semantic validation
(`Agent.validatePlan`), yet executing its ToolCall step panics (unchecked
string type assertion on the numeric `parameters["input"]`) instead of
returning an error. -/
theorem c10_theorem :
    validatePlan planC10 = none ∧
    Agent.validatePlan envC10 planC10 "run calc" = none ∧
    (∃ msg, Agent.executeStep envC10 stepC10 = GoRes.panicked msg) ∧
    (∃ msg, (Agent.execute envC10 planC10).result = GoRes.panicked msg) := by
  refine ⟨rfl, rfl, ⟨_, rfl⟩, ⟨_, rfl⟩⟩

/-! ## Loop termination and the iteration budget (C5) -/

lemma loopAux_budget (env : AgentEnv) (S : String → Prop)
    (hinv : ∀ q it, S q → ∃ p r, Agent.think env q it = Except.ok p ∧
      (Agent.execute env p).result = GoRes.ok (r, true) ∧ S r) :
    ∀ (remaining iteration : Nat) (q : String), S q →
      (Agent.thinkExecuteLoopAux env remaining iteration q).result =
        GoRes.err ("超过最大迭代次数 " ++ toString env.maxIterations) := by
  intro remaining
  induction remaining with
  | zero => intro iteration q _; rfl
  | succ rem ih =>
    intro iteration q hq
    obtain ⟨p, r, hthink, hexec, hS⟩ := hinv q (iteration + 1) hq
    simp only [Agent.thinkExecuteLoopAux, hthink, hexec, Bool.not_true,
      Bool.false_eq_true, if_false]
    exact ih (iteration + 1) r hS

/-- C5: (i) a step whose continue flag is false ends the run immediately with
that step's result as the final answer even when later steps are declared
(the whole execution equals the one with the later steps dropped, and
`Execute` returns that step's result); (ii) when every iteration's plan
executes with continue = true, the loop always ends with the
iteration-budget-exceeded error. -/
theorem c5_theorem
    (env env2 : AgentEnv) (q q2 th : String) (s : PlanStep)
    (post : List PlanStep) (r : String) (S : String → Prop)
    (hmodel : env.hasModel = true)
    (hmodel2 : env2.hasModel = true)
    (hmax : 1 ≤ env.maxIterations)
    (hsc : s.ShouldContinue = false)
    (hstep : Agent.executeStep env s = GoRes.ok r)
    (hthink : Agent.think env q 1 = Except.ok ⟨th, s :: post⟩)
    (hq2 : S q2)
    (hinv : ∀ q' it, S q' → ∃ p r', Agent.think env2 q' it = Except.ok p ∧
      (Agent.execute env2 p).result = GoRes.ok (r', true) ∧ S r') :
    Agent.execute env ⟨th, s :: post⟩ = Agent.execute env ⟨th, [s]⟩ ∧
    (Agent.execute env ⟨th, s :: post⟩).result = GoRes.ok (r, false) ∧
    (Agent.Execute env q).result = GoRes.ok r ∧
    (Agent.Execute env2 q2).result =
      GoRes.err ("超过最大迭代次数 " ++ toString env2.maxIterations) := by
  have hbudget := loopAux_budget env2 S hinv env2.maxIterations 0 q2 hq2
  have hbudgetE : (Agent.Execute env2 q2).result =
      GoRes.err ("超过最大迭代次数 " ++ toString env2.maxIterations) := by
    simp only [Agent.Execute, hmodel2, Bool.not_true, Bool.false_eq_true, if_false]
    cases hq3 : Agent.thinkExecuteLoop env2 q2 with
    | mk evs3 res3 =>
      rw [show Agent.thinkExecuteLoopAux env2 env2.maxIterations 0 q2 =
          Agent.thinkExecuteLoop env2 q2 from rfl, hq3] at hbudget
      simp only at hbudget
      subst hbudget
      simp [hq3]
  have hres : ∀ rest : List PlanStep,
      Agent.executeSteps env (s :: rest) 0 "" false [] =
        ⟨sendEvent env ("step_" ++ toString (0 + 1) ++ "_start")
            AgentStatus.executing
            ("执行步骤 " ++ toString (0 + 1) ++ ": " ++ s.Action) ++
          sendEvent env ("step_" ++ toString (0 + 1) ++ "_complete")
            AgentStatus.executing ("步骤 " ++ toString (0 + 1) ++ "完成"),
          GoRes.ok (r, false)⟩ := by
    intro rest
    simp only [Agent.executeSteps, hstep, hsc, Bool.false_and,
      Bool.false_eq_true, if_false]
  have hexeq : Agent.execute env ⟨th, s :: post⟩ = Agent.execute env ⟨th, [s]⟩ := by
    simp only [Agent.execute, hres]
  have hres2 : (Agent.execute env ⟨th, s :: post⟩).result = GoRes.ok (r, false) := by
    simp only [Agent.execute, hres]
  refine ⟨hexeq, hres2, ?_, hbudgetE⟩
  obtain ⟨m, hm⟩ : ∃ m, env.maxIterations = m + 1 :=
    ⟨env.maxIterations - 1, by omega⟩
  have hloop : (Agent.thinkExecuteLoop env q).result = GoRes.ok r := by
    rw [Agent.thinkExecuteLoop, hm]
    simp only [Agent.thinkExecuteLoopAux, Nat.zero_add, hthink]
    cases hq : Agent.execute env ⟨th, s :: post⟩ with
    | mk evs res =>
      rw [hq] at hres2
      simp only at hres2
      subst hres2
      simp [hq]
  simp only [Agent.Execute, hmodel, Bool.not_true, Bool.false_eq_true, if_false]
  cases hq2 : Agent.thinkExecuteLoop env q with
  | mk evs2 res2 =>
    rw [hq2] at hloop
    simp only at hloop
    subst hloop
    simp [hq2]

/-- A two-step plan whose first Reason step stops the run (continue false)
while a second step is declared after it. -/
def jsonC5a : String :=
  "\x7b\"thought\":\"alpha beta plan\",\"steps\":[\x7b\"action\":\"reason\",\"parameters\":\x7b\"prompt\":\"pp\"\x7d,\"should_continue\":false\x7d,\x7b\"action\":\"reason\",\"parameters\":\x7b\"prompt\":\"qq\"\x7d,\"should_continue\":false\x7d]\x7d"

def stepC5s : PlanStep := ⟨"reason", some [("prompt", JVal.jstr "pp")], false⟩

def stepC5post : PlanStep := ⟨"reason", some [("prompt", JVal.jstr "qq")], false⟩

/-- Model for part (i): answers the Reason prompt "pp" with "RR" and think
prompts with the two-step plan. -/
def envC5a : AgentEnv :=
  ⟨true, fun p => Except.ok (if p = "pp" then "RR" else jsonC5a),
   false, [], fun _ _ => Except.error "no tool",
   false, fun _ _ => Except.error "no rag", true, 5⟩

/-- A single-step plan that always continues; the model returns it for every
prompt, so every iteration thinks successfully and continues. -/
def jsonC5b : String :=
  "\x7b\"thought\":\"alpha beta bbb\",\"steps\":[\x7b\"action\":\"reason\",\"parameters\":\x7b\"prompt\":\"x beta y\"\x7d,\"should_continue\":true\x7d]\x7d"

def envC5b : AgentEnv :=
  ⟨true, fun _ => Except.ok jsonC5b,
   false, [], fun _ _ => Except.error "no tool",
   false, fun _ _ => Except.error "no rag", true, 3⟩

def planC5bP : ExecutionPlan :=
  ⟨"alpha beta bbb", [⟨"reason", some [("prompt", JVal.jstr "x beta y")], true⟩]⟩

/-- C5 (witness): the four conclusions at concrete environments; the
invariant set for part (ii) is the two queries that actually occur. -/
theorem c5_witness :
    Agent.execute envC5a ⟨"alpha beta plan", stepC5s :: [stepC5post]⟩ =
      Agent.execute envC5a ⟨"alpha beta plan", [stepC5s]⟩ ∧
    (Agent.execute envC5a ⟨"alpha beta plan", stepC5s :: [stepC5post]⟩).result =
      GoRes.ok ("RR", false) ∧
    (Agent.Execute envC5a "alpha beta").result = GoRes.ok "RR" ∧
    (Agent.Execute envC5b "alpha beta").result =
      GoRes.err ("超过最大迭代次数 " ++ toString envC5b.maxIterations) :=
  c5_theorem envC5a envC5b "alpha beta" "alpha beta" "alpha beta plan"
    stepC5s [stepC5post] "RR"
    (fun q' => q' = "alpha beta" ∨ q' = jsonC5b)
    rfl rfl (by decide) rfl rfl rfl (Or.inl rfl)
    (fun q' it hq' => by
      rcases hq' with rfl | rfl
      · exact ⟨planC5bP, jsonC5b, rfl, rfl, Or.inr rfl⟩
      · exact ⟨planC5bP, jsonC5b, rfl, rfl, Or.inr rfl⟩)

/-! ## Step failure and recovery (C6) -/

/-- C6: when a step fails and its recovery strategy succeeds, the recovery
result becomes the step's result and execution proceeds normally (history
records it, the continue flag is read, later steps run iff it says so); when
recovery fails, the whole execution fails with the composed error carrying
both the original step failure and the recovery failure, and `Execute` never
returns a success. -/
theorem c6_theorem
    (env : AgentEnv) (th : String) (s : PlanStep) (post : List PlanStep)
    (e r re : String)
    (hfail : Agent.executeStep env s = GoRes.err e) :
    (Agent.recoverFromError env s e [] = GoRes.ok r →
      Agent.execute env ⟨th, s :: post⟩ =
        (let tail : EmitM (String × Bool) :=
          if s.ShouldContinue && !post.isEmpty then
            Agent.executeSteps env post 1 r s.ShouldContinue [r]
          else ⟨[], GoRes.ok (r, s.ShouldContinue)⟩
        ⟨sendEvent env ("step_" ++ toString (0 + 1) ++ "_start")
            AgentStatus.executing
            ("执行步骤 " ++ toString (0 + 1) ++ ": " ++ s.Action) ++
          sendEvent env ("step_" ++ toString (0 + 1) ++ "_error")
            AgentStatus.error ("执行步骤 " ++ toString (0 + 1) ++ "失败: " ++ e) ++
          sendEvent env ("step_" ++ toString (0 + 1) ++ "_recovered")
            AgentStatus.executing "步骤执行已恢复" ++
          sendEvent env ("step_" ++ toString (0 + 1) ++ "_complete")
            AgentStatus.executing ("步骤 " ++ toString (0 + 1) ++ "完成") ++
          tail.events,
         tail.result⟩)) ∧
    (Agent.recoverFromError env s e [] = GoRes.err re →
      (Agent.execute env ⟨th, s :: post⟩).result =
        GoRes.err (("执行步骤 " ++ toString (0 + 1) ++ "失败: " ++ e) ++
          "，恢复失败: " ++ re) ∧
      ∀ q : String, env.hasModel = true → 1 ≤ env.maxIterations →
        Agent.think env q 1 = Except.ok ⟨th, s :: post⟩ →
        (Agent.Execute env q).result =
          GoRes.err ("执行阶段出错: " ++
            (("执行步骤 " ++ toString (0 + 1) ++ "失败: " ++ e) ++
              "，恢复失败: " ++ re))) := by
  constructor
  · intro hrec
    simp only [Agent.execute, Agent.executeSteps, hfail, hrec]
    by_cases hcond : (s.ShouldContinue && !post.isEmpty) = true
    · simp [hcond]
    · simp only [Bool.not_eq_true] at hcond
      simp [hcond]
  · intro hrec
    have hres2 : (Agent.execute env ⟨th, s :: post⟩).result =
        GoRes.err (("执行步骤 " ++ toString (0 + 1) ++ "失败: " ++ e) ++
          "，恢复失败: " ++ re) := by
      simp only [Agent.execute, Agent.executeSteps, hfail, hrec]
    refine ⟨hres2, ?_⟩
    intro q hmodel hmax hthink
    obtain ⟨m, hm⟩ : ∃ m, env.maxIterations = m + 1 :=
      ⟨env.maxIterations - 1, by omega⟩
    have hloop : (Agent.thinkExecuteLoop env q).result =
        GoRes.err ("执行阶段出错: " ++
          (("执行步骤 " ++ toString (0 + 1) ++ "失败: " ++ e) ++
            "，恢复失败: " ++ re)) := by
      rw [Agent.thinkExecuteLoop, hm]
      simp only [Agent.thinkExecuteLoopAux, Nat.zero_add, hthink]
      cases hq : Agent.execute env ⟨th, s :: post⟩ with
      | mk evs res =>
        rw [hq] at hres2
        simp only at hres2
        subst hres2
        simp [hq]
    simp only [Agent.Execute, hmodel, Bool.not_true, Bool.false_eq_true, if_false]
    cases hq2 : Agent.thinkExecuteLoop env q with
    | mk evs2 res2 =>
      rw [hq2] at hloop
      simp only at hloop
      subst hloop
      simp [hq2]

/-- Tool backend that always fails: the step fails and every recovery retry
fails too. -/
def envC6 : AgentEnv :=
  ⟨true, fun _ => Except.ok "m",
   true, ["t1"], fun _ _ => Except.error "boom",
   false, fun _ _ => Except.error "no rag", true, 5⟩

def stepC6 : PlanStep :=
  ⟨"search_tool", some [("tool_name", JVal.jstr "t1"), ("input", JVal.jstr "ii")],
   false⟩

/-- Model that fails on the step's own prompt "pp" but answers the recovery
prompt, so the Reason step fails and its recovery succeeds. -/
def envC6b : AgentEnv :=
  ⟨true, fun p => if p = "pp" then Except.error "mboom" else Except.ok "recovered-ans",
   false, [], fun _ _ => Except.error "no tool",
   false, fun _ _ => Except.error "no rag", true, 5⟩

def stepC6b : PlanStep := ⟨"reason", some [("prompt", JVal.jstr "pp")], false⟩

/-- C6 (witness): recovery success uses the recovered result as the step
result; recovery failure yields the composed error. -/
theorem c6_witness :
    Agent.execute envC6b ⟨"tt", [stepC6b]⟩ =
      ⟨[⟨"step_1_start", AgentStatus.executing, "执行步骤 1: reason"⟩,
        ⟨"step_1_error", AgentStatus.error, "执行步骤 1失败: 推理失败: mboom"⟩,
        ⟨"step_1_recovered", AgentStatus.executing, "步骤执行已恢复"⟩,
        ⟨"step_1_complete", AgentStatus.executing, "步骤 1完成"⟩],
       GoRes.ok ("recovered-ans", false)⟩ ∧
    (Agent.execute envC6 ⟨"tt", [stepC6]⟩).result =
      GoRes.err "执行步骤 1失败: 工具调用失败 t1: boom，恢复失败: 所有替代方案都失败" :=
  ⟨(c6_theorem envC6b "tt" stepC6b [] "推理失败: mboom" "recovered-ans" "x" rfl).1 rfl,
   ((c6_theorem envC6 "tt" stepC6 [] "工具调用失败 t1: boom" "x" "所有替代方案都失败"
      rfl).2 rfl).1⟩

/-! ## SSE broker (`internal/sse`, lines 400-699 of `src/internal/rag/engine.go`)

Serialized events (byte slices) are modelled as strings; a client's buffered
channel is its FIFO queue list (front = oldest) with capacity `cap` (100 in
`NewClient`). -/

structure SSEClient where
  id : String
  events : List String
  cap : Nat
  done : Bool
deriving DecidableEq, Repr

/-- `NewClient` (engine.go sse section, lines 427-434): fresh client with an
empty queue of capacity 100. -/
def NewClient (id : String) : SSEClient := ⟨id, [], 100, false⟩

/-- `Client.Send` (lines 436-447): non-blocking select — a closed `done`
returns false, a queue with space enqueues and returns true, and the
`default` branch drops the event and returns false.  (Go picks randomly when
several select cases are ready, and a `Send` racing `Close` can panic on the
closed channel; neither matters to any claim and neither is modelled.) -/
def clientSend (c : SSEClient) (event : String) : SSEClient × Bool :=
  if c.done then (c, false)
  else if c.events.length < c.cap then
    ({ c with events := c.events ++ [event] }, true)
  else (c, false)

/-- The fan-out of `Broker.run` for one dequeued event (lines 496-516): the
loop snapshots the clients and sends to each independently; for a single
event the per-client updates commute, so the state after all the spawned
sends is the pointwise `Send`. -/
def deliverEvent (clients : List SSEClient) (event : String) : List SSEClient :=
  clients.map (fun c => (clientSend c event).1)

/-- Broker state: subscriber set and the central events channel
(capacity 1000 in `NewBroker`). -/
structure BrokerState where
  clients : List SSEClient
  eventsQueue : List String
deriving DecidableEq, Repr

/-- `Broker.Broadcast` (lines 649-664): non-blocking enqueue onto the central
channel; when it is full the event is dropped.  A total function: the publish
call never returns an error and never blocks the publisher. -/
def Broadcast (b : BrokerState) (event : String) : BrokerState :=
  if b.eventsQueue.length < 1000 then
    { b with eventsQueue := b.eventsQueue ++ [event] }
  else b

/-- Executing a sequence of spawned `Send` tasks against one subscriber in
the order the scheduler happens to run them.  `Broker.run` dequeues events in
publish order but wraps each per-client `Send` in its own goroutine
(`go func(c) { c.Send(eventBytes) }(client)`, lines 511-516), so the Go
scheduler may execute the send tasks of successive events in any order: the
possible arrival sequences at one subscriber are exactly `execSends` over the
permutations of the published events. -/
def execSends (c : SSEClient) : List String → SSEClient
  | [] => c
  | e :: rest => execSends (clientSend c e).1 rest

/-- C7: `Send` to a subscriber whose queue is at capacity leaves that
subscriber's queue unchanged and reports the drop as a plain `false` (no
error, and — being the `default` select branch — no blocking); a subscriber
with space enqueues normally; fan-out is pointwise, so every other
subscriber's delivery is computed from its own state only; and the publish
call itself (`Broadcast`) never touches the subscriber set and is total. -/
theorem c7_theorem (event : String) (c : SSEClient)
    (hdone : c.done = false) (hfull : c.cap ≤ c.events.length) :
    clientSend c event = (c, false) ∧
    (∀ other : SSEClient, other.done = false → other.events.length < other.cap →
      clientSend other event =
        ({ other with events := other.events ++ [event] }, true)) ∧
    (∀ (cs : List SSEClient) (j : Nat) (hj : j < cs.length),
      (deliverEvent cs event).get ⟨j, by simpa [deliverEvent] using hj⟩ =
        (clientSend (cs.get ⟨j, hj⟩) event).1) ∧
    (∀ b : BrokerState, (Broadcast b event).clients = b.clients) := by
  refine ⟨?_, ?_, ?_, ?_⟩
  · rw [clientSend, if_neg (by simp [hdone]), if_neg (by omega)]
  · intro other hd hsp
    rw [clientSend, if_neg (by simp [hd]), if_pos hsp]
  · intro cs j hj
    simp [deliverEvent]
  · intro b
    rw [Broadcast]
    by_cases hb : b.eventsQueue.length < 1000
    · rw [if_pos hb]
    · rw [if_neg hb]

/-- C7 (witness): a subscriber at capacity drops while a fresh subscriber
still receives. -/
theorem c7_witness :
    clientSend ⟨"a", ["old"], 1, false⟩ "x" = (⟨"a", ["old"], 1, false⟩, false) ∧
    clientSend (NewClient "b") "x" = (⟨"b", ["x"], 100, false⟩, true) ∧
    deliverEvent [⟨"a", ["old"], 1, false⟩, NewClient "b"] "x" =
      [⟨"a", ["old"], 1, false⟩, ⟨"b", ["x"], 100, false⟩] := by
  obtain ⟨h1, h2, _h3, _h4⟩ :=
    c7_theorem "x" ⟨"a", ["old"], 1, false⟩ rfl (by decide)
  exact ⟨h1, h2 (NewClient "b") rfl (by decide), by decide⟩

/-- C8: the broker's central queue does preserve publish order (first
conjunct), but because `Broker.run` spawns one goroutine per `Send`, the Go
scheduler may run the delivery task of the second event before that of the
first: the schedule `["e2", "e1"]` is a permutation of the spawn (publish)
order `["e1", "e2"]`, and under it the subscriber's FIFO queue holds the
events in the reversed order — per-subscriber delivery in publish order is
not guaranteed by the code, contradicting the ordering the specification
states. -/
theorem c8_theorem :
    (Broadcast (Broadcast ⟨[], []⟩ "e1") "e2").eventsQueue = ["e1", "e2"] ∧
    List.Perm ["e2", "e1"] ["e1", "e2"] ∧
    (execSends (NewClient "s") ["e2", "e1"]).events = ["e2", "e1"] ∧
    ["e2", "e1"] ≠ ["e1", "e2"] :=
  ⟨rfl, List.Perm.swap "e1" "e2" [], rfl, by decide⟩

end AiAgent
